import Mathlib

/-!
# Logging hub hook (`log/hooks/logginghub.go`)

A shallow embedding of the batching log hook: the pending buffer
(`pendingLogs`), the field filter (`Fire`), the scheduler loop (`Run`) and the
HTTP delivery (`Flush`).

Conventions of the embedding.

* A Go `string` is a Lean `String`; `len` is its length in bytes.
* A Go `int` is an `Int`; additions go through `goAdd`, which wraps at 64 bits.
* A Go `map[string]T` is an association list `GoMap T`; a well-formed map has
  no repeated key, and `range` visits the bindings in list order (any order
  may be the list order).
* A `*LoggingHubEntry` is the entry value itself.
* Calls that leave the program (HTTP POST, the logger) are recorded in a trace
  of `Effect`s; what the network answers is an input (`PostResult`).
-/

namespace LoggingHub

/-! ## Go primitives -/

/-- Two's complement wrap-around of a Go `int` (64 bits). -/
def wrapInt (x : Int) : Int :=
  (x + 9223372036854775808) % 18446744073709551616 - 9223372036854775808

/-- Go `a + b` on `int`. -/
def goAdd (a b : Int) : Int := wrapInt (a + b)

/-- Go `len(s)` for a string: the number of bytes. -/
def len (s : String) : Int := (s.utf8ByteSize : Int)

/-- Go `map[string]T`. -/
abbrev GoMap (α : Type) := List (String × α)

/-- Go `v, ok := m[k]`. -/
def GoMap.get? {α : Type} (m : GoMap α) (k : String) : Option α :=
  match m with
  | [] => none
  | (k', v) :: rest => if k' = k then some v else GoMap.get? rest k

/-- Go `m[k] = v`. -/
def GoMap.set {α : Type} (m : GoMap α) (k : String) (v : α) : GoMap α :=
  match m with
  | [] => [(k, v)]
  | (k', v') :: rest => if k' = k then (k, v) :: rest else (k', v') :: GoMap.set rest k v

/-- The keys of a map, in list order. -/
def GoMap.keys {α : Type} (m : GoMap α) : List String := m.map Prod.fst

/-! ## Data model -/

/-- The struct `LoggingHubEntry`. -/
structure LoggingHubEntry where
  Log : String
  Time : String
  Level : String
  Fields : GoMap String
deriving DecidableEq, Repr

/-- The struct `LoggingHubEntriesReq`, the value that is marshalled to the POST body. -/
structure LoggingHubEntriesReq where
  Senders : List String
  Entries : List LoggingHubEntry
deriving DecidableEq, Repr

/-- The struct `pendingLogs` (the mutex is not represented: every operation is atomic). -/
structure pendingLogs where
  items : List LoggingHubEntry
  totalSize : Int
deriving DecidableEq, Repr

/-- The zero value `&pendingLogs{}`. -/
def pendingLogs.empty : pendingLogs := ⟨[], 0⟩

/-- The function `getSize`: the field map is not counted. -/
def getSize (entry : LoggingHubEntry) : Int :=
  goAdd (goAdd (len entry.Log) (len entry.Time)) (len entry.Level)

/-- The method `pendingLogs.appendLog`: the new buffer and the returned pair
`(len(pl.items), pl.totalSize)`. -/
def pendingLogs.appendLog (pl : pendingLogs) (entry : LoggingHubEntry) :
    pendingLogs × (Int × Int) :=
  let totalSize := goAdd pl.totalSize (getSize entry)
  let items := pl.items ++ [entry]
  (⟨items, totalSize⟩, ((items.length : Int), totalSize))

/-- The method `pendingLogs.flush`: the new buffer and the returned entries. -/
def pendingLogs.flush (pl : pendingLogs) : pendingLogs × List LoggingHubEntry :=
  let entries := pl.items
  (⟨[], pl.totalSize⟩, entries)

/-- A call on the buffer. -/
inductive BufferCall where
  | appendLog (entry : LoggingHubEntry)
  | flush
deriving DecidableEq, Repr

/-- Runs a sequence of atomic calls on the buffer; returns the final buffer and
the results of the `flush` calls in call order. -/
def pendingLogs.run (pl : pendingLogs) : List BufferCall → pendingLogs × List (List LoggingHubEntry)
  | [] => (pl, [])
  | BufferCall.appendLog e :: rest => pendingLogs.run (pl.appendLog e).1 rest
  | BufferCall.flush :: rest =>
      let r := pendingLogs.run pl.flush.1 rest
      (r.1, pl.flush.2 :: r.2)

/-- The entries appended by a sequence of calls, in arrival order. -/
def appended : List BufferCall → List LoggingHubEntry
  | [] => []
  | BufferCall.appendLog e :: rest => e :: appended rest
  | BufferCall.flush :: rest => appended rest

/-! ## Values, records and the hook -/

/-- A Go `interface{}` value, as far as this package can observe it: whether its
dynamic type implements `json.Marshaler`, the result of its `Error()` method
when it implements `error`, the result of its `String()` method when it
implements `fmt.Stringer`, and the underlying datum. -/
structure Value where
  isMarshaler : Bool
  errorMethod : Option String
  stringMethod : Option String
  datum : String
deriving DecidableEq, Repr

/-- A Go string held in an `interface{}`. -/
def Value.ofString (s : String) : Value := ⟨false, none, none, s⟩

/-- The function `formatData`: the type switch takes the first case that matches. -/
def formatData (value : Value) : Value :=
  if value.isMarshaler then value
  else match value.errorMethod with
    | some msg => Value.ofString msg
    | none =>
      match value.stringMethod with
      | some str => Value.ofString str
      | none => value

/-- The type `logrus.Level` (a `uint32`). -/
abbrev Level := Nat

def PanicLevel : Level := 0
def FatalLevel : Level := 1
def ErrorLevel : Level := 2
def WarnLevel : Level := 3
def InfoLevel : Level := 4
def DebugLevel : Level := 5
def TraceLevel : Level := 6

/-- The method `logrus.Level.String`. -/
def Level.String (l : Level) : String :=
  match l with
  | 0 => "panic"
  | 1 => "fatal"
  | 2 => "error"
  | 3 => "warning"
  | 4 => "info"
  | 5 => "debug"
  | 6 => "trace"
  | _ => "unknown"

/-- An instant (`time.Time`), in nanoseconds since the epoch. -/
abbrev Time := Int

/-- The record `logrus.Entry`, as far as `Fire` reads it. -/
structure Entry where
  Message : String
  Level : Level
  Time : Time
  Data : GoMap Value

/-- The two standard-library renderings `Fire` relies on: `fmt.Sprintf("%v", v)`
and `t.UTC().Format(timeFormat)`. They are inputs of the embedding. -/
structure Stdlib where
  Sprintf : Value → String
  Format : Time → String

/-- The rendering of `%v` for a value: `Error()` first, then `String()`, then
the datum. Used for concrete runs. -/
def Value.render (v : Value) : String :=
  match v.errorMethod with
  | some msg => msg
  | none =>
    match v.stringMethod with
    | some str => str
    | none => v.datum

/-- A concrete standard library for runs on examples. -/
def Stdlib.sample : Stdlib := ⟨Value.render, fun t => toString t⟩

/-- The constant `defaultFlushInterval` (30 s as a `time.Duration`). -/
def defaultFlushInterval : Int := 30 * 1000000000

/-- The variable `defaultLevels`. -/
def defaultLevels : List Level := [PanicLevel, FatalLevel, ErrorLevel, WarnLevel, InfoLevel]

/-- The struct `Config`. -/
structure Config where
  LoggingHubURL : String
  Senders : List String
  LogLevels : List Level
  DefaultIgnoreFields : GoMap Unit
  DefaultFilters : GoMap (Value → Value)
  BatchSizeInLines : Int
  RequestSizeLimit : Int
  FlushInterval : Int

/-- The struct `LoggingHubHook`. The channel is not part of the state: a send on
it is the value `Fire` returns, a receive is the `Event.entry` that `Run` takes. -/
structure LoggingHubHook where
  config : Config
  levels : List Level
  pendingLogs : pendingLogs
  ignoreFields : GoMap Unit
  filters : GoMap (Value → Value)

/-- The loop `for k, v := range src dst[k] = v`. -/
def GoMap.copyInto {α : Type} (src dst : GoMap α) : GoMap α :=
  src.foldl (fun acc kv => acc.set kv.1 kv.2) dst

/-- The function `NewWithConfig`. The hook returned is the state in which the
background `Run` starts. -/
def NewWithConfig (conf : Config) : Except String LoggingHubHook :=
  if conf.LoggingHubURL = "" then
    Except.error "loggingHubURL can no be empty"
  else if conf.Senders.length = 0 then
    Except.error "configuration must have at least one sender"
  else
    let conf1 : Config :=
      if conf.FlushInterval = 0 then
        ⟨conf.LoggingHubURL, conf.Senders, conf.LogLevels, conf.DefaultIgnoreFields,
          conf.DefaultFilters, conf.BatchSizeInLines, conf.RequestSizeLimit, defaultFlushInterval⟩
      else conf
    let levels := if conf1.LogLevels.length = 0 then defaultLevels else conf1.LogLevels
    Except.ok ⟨conf1, levels, pendingLogs.empty,
      GoMap.copyInto conf1.DefaultIgnoreFields [],
      GoMap.copyInto conf1.DefaultFilters []⟩

/-- The function `NewLoggingHubHook`. -/
def NewLoggingHubHook (loggingHubURL : String) (senders : List String) :
    Except String LoggingHubHook :=
  NewWithConfig ⟨loggingHubURL, senders, [], [], [], 0, 0, defaultFlushInterval⟩

/-- The method `Levels`. -/
def LoggingHubHook.Levels (hook : LoggingHubHook) : List Level := hook.levels

/-- The method `SetLevels`. -/
def LoggingHubHook.SetLevels (hook : LoggingHubHook) (levels : List Level) : LoggingHubHook :=
  ⟨hook.config, levels, hook.pendingLogs, hook.ignoreFields, hook.filters⟩

/-- The method `AddIgnore`. -/
def LoggingHubHook.AddIgnore (hook : LoggingHubHook) (name : String) : LoggingHubHook :=
  ⟨hook.config, hook.levels, hook.pendingLogs, hook.ignoreFields.set name (), hook.filters⟩

/-- The method `AddFilter`. -/
def LoggingHubHook.AddFilter (hook : LoggingHubHook) (name : String) (fn : Value → Value) :
    LoggingHubHook :=
  ⟨hook.config, hook.levels, hook.pendingLogs, hook.ignoreFields, hook.filters.set name fn⟩

/-- One pass of the body of the `range entry.Data` loop of `Fire`. -/
def LoggingHubHook.fireField (lib : Stdlib) (hook : LoggingHubHook)
    (fields : GoMap String) (kv : String × Value) : GoMap String :=
  match hook.ignoreFields.get? kv.1 with
  | some _ => fields
  | none =>
    let v := match hook.filters.get? kv.1 with
      | some fn => fn kv.2
      | none => formatData kv.2
    fields.set kv.1 (lib.Sprintf v)

/-- The method `Fire`: the entry sent on the channel. The Go method always
returns a nil error. -/
def LoggingHubHook.Fire (lib : Stdlib) (hook : LoggingHubHook) (entry : Entry) :
    LoggingHubEntry :=
  { Log := entry.Message
    Level := Level.String entry.Level
    Time := lib.Format entry.Time
    Fields := entry.Data.foldl (hook.fireField lib) [] }

/-! ## Delivery and the scheduler -/

/-- A value of a logger field. -/
inductive FieldValue where
  | int (n : Int)
  | text (s : String)
deriving DecidableEq, Repr

/-- One call of the logger at error level: the message and the fields set by
`WithError` (key `error`) or `WithFields`. -/
structure LogCall where
  message : String
  fields : List (String × FieldValue)
deriving DecidableEq, Repr

/-- What the hook does to the outside world. -/
inductive Effect where
  | post (url : String) (contentType : String) (body : LoggingHubEntriesReq)
  | logError (call : LogCall)
deriving DecidableEq, Repr

/-- The part of `http.Response` that is read: the status code and what
`ioutil.ReadAll(resp.Body)` returns (the bytes and the error, if any). -/
structure Response where
  StatusCode : Int
  Body : String
  ReadErr : Option String
deriving DecidableEq, Repr

/-- The two results of `client.Post`: `resp` is `none` for a nil pointer. -/
structure PostResult where
  resp : Option Response
  err : Option String
deriving DecidableEq, Repr

/-- How a call ends: it returns, or it panics (nil pointer dereference). -/
inductive Outcome where
  | returned
  | panicked
deriving DecidableEq, Repr

/-- The state after `Flush` or after one iteration of `Run`. -/
structure FlushResult where
  hook : LoggingHubHook
  effects : List Effect
  outcome : Outcome

/-- The function `getHTTPErrorMsg`: the text returned and the log calls made. -/
def getHTTPErrorMsg (resp : Response) : String × List Effect :=
  match resp.ReadErr with
  | some err =>
      ("", [Effect.logError ⟨"Failed to parse response body", [("error", FieldValue.text err)]⟩])
  | none => (resp.Body, [])

/-- Replaces the buffer of a hook. -/
def LoggingHubHook.withPending (hook : LoggingHubHook) (pl : LoggingHub.pendingLogs) :
    LoggingHubHook :=
  ⟨hook.config, hook.levels, pl, hook.ignoreFields, hook.filters⟩

/-- The method `Flush`; `net` is what `client.Post` returns if it is called. -/
def LoggingHubHook.Flush (hook : LoggingHubHook) (net : PostResult) : FlushResult :=
  let entries := hook.pendingLogs.flush.2
  let hook1 := hook.withPending hook.pendingLogs.flush.1
  if entries.length = 0 then
    ⟨hook1, [], Outcome.returned⟩
  else
    let posted := [Effect.post hook.config.LoggingHubURL "application/json"
      ⟨hook.config.Senders, entries⟩]
    let errLog := match net.err with
      | some err => [Effect.logError ⟨"Error flushing logs", [("error", FieldValue.text err)]⟩]
      | none => []
    match net.resp with
    | none => ⟨hook1, posted ++ errLog, Outcome.panicked⟩
    | some resp =>
      if resp.StatusCode ≥ 300 then
        ⟨hook1, posted ++ errLog ++ (getHTTPErrorMsg resp).2 ++
          [Effect.logError ⟨"Error posting logs",
            [("statusCode", FieldValue.int resp.StatusCode),
             ("error", FieldValue.text (getHTTPErrorMsg resp).1)]⟩], Outcome.returned⟩
      else
        ⟨hook1, posted ++ errLog, Outcome.returned⟩

/-- The two cases of the `select` in `Run`. -/
inductive Event where
  | entry (logEntry : LoggingHubEntry)
  | tick
deriving DecidableEq, Repr

/-- One iteration of the loop of `Run`. -/
def LoggingHubHook.RunStep (hook : LoggingHubHook) (ev : Event) (net : PostResult) :
    FlushResult :=
  match ev with
  | Event.entry logEntry =>
    let numRecords := (hook.pendingLogs.appendLog logEntry).2.1
    let hook1 := hook.withPending (hook.pendingLogs.appendLog logEntry).1
    if numRecords ≥ hook.config.BatchSizeInLines then hook1.Flush net
    else ⟨hook1, [], Outcome.returned⟩
  | Event.tick => hook.Flush net

/-- The state of the background task after a finite run. -/
structure RunResult where
  hook : LoggingHubHook
  effects : List Effect
  halted : Bool

/-- The method `Run` on a finite run of the `select`: each event comes with
what the network answers if that iteration posts. A panic in the goroutine is
not recovered, so the loop stops there. -/
def LoggingHubHook.Run (hook : LoggingHubHook) : List (Event × PostResult) → RunResult
  | [] => ⟨hook, [], false⟩
  | (ev, net) :: rest =>
    match (hook.RunStep ev net).outcome with
    | Outcome.panicked => ⟨(hook.RunStep ev net).hook, (hook.RunStep ev net).effects, true⟩
    | Outcome.returned =>
      let r := LoggingHubHook.Run (hook.RunStep ev net).hook rest
      ⟨r.hook, (hook.RunStep ev net).effects ++ r.effects, r.halted⟩

/-- The batches handed to the sink, in order: the entries of each POST body. -/
def deliveries : List Effect → List (List LoggingHubEntry)
  | [] => []
  | Effect.post _ _ body :: rest => body.Entries :: deliveries rest
  | Effect.logError _ :: rest => deliveries rest

/-- The POST calls of a trace, in order. -/
def posts : List Effect → List Effect
  | [] => []
  | Effect.post url ct body :: rest => Effect.post url ct body :: posts rest
  | Effect.logError _ :: rest => posts rest

/-- The logger calls of a trace, in order. -/
def logs : List Effect → List LogCall
  | [] => []
  | Effect.post _ _ _ :: rest => logs rest
  | Effect.logError call :: rest => call :: logs rest

/-- A response from the sink with no transport error. -/
def PostResult.answered (resp : Response) : PostResult := ⟨some resp, none⟩

/-- A transport failure: an error and no response. -/
def PostResult.failed (err : String) : PostResult := ⟨none, some err⟩

/-- The arrivals of a list of entries, each with the network answer of its iteration. -/
def arrivals (l : List (LoggingHubEntry × PostResult)) : List (Event × PostResult) :=
  l.map (fun p => (Event.entry p.1, p.2))

/-- The arrivals of a list of entries when the sink answers every POST (with
any status code): no transport failure. -/
def answeredArrivals (l : List (LoggingHubEntry × Response)) : List (Event × PostResult) :=
  arrivals (l.map (fun p => (p.1, PostResult.answered p.2)))

/-- The entries received from the channel in a run, in arrival order. -/
def arrivedEntries : List (Event × PostResult) → List LoggingHubEntry
  | [] => []
  | (Event.entry e, _) :: rest => e :: arrivedEntries rest
  | (Event.tick, _) :: rest => arrivedEntries rest

/-- The sum of the sizes (`getSize`) of a list of entries, as an exact integer. -/
def sizeSum (l : List LoggingHubEntry) : Int := (l.map getSize).sum

/-! ## Concrete inputs for runs on examples -/

/-- A configuration with the given batch threshold. -/
def sampleConfig (threshold : Int) : Config :=
  ⟨"http://hub.local/logs", ["frontend"], [], [], [], threshold, 0, defaultFlushInterval⟩

/-- The hook `NewWithConfig` builds from `sampleConfig`, before any entry arrived. -/
def sampleHook (threshold : Int) : LoggingHubHook :=
  ⟨sampleConfig threshold, defaultLevels, pendingLogs.empty, [], []⟩

def entryA : LoggingHubEntry := ⟨"A", "2020-01-01T00:00:00.000Z", "info", []⟩
def entryB : LoggingHubEntry := ⟨"B", "2020-01-01T00:00:01.000Z", "error", [("user", "u1")]⟩
def entryC : LoggingHubEntry := ⟨"C", "2020-01-01T00:00:02.000Z", "warning", []⟩
def entryD : LoggingHubEntry := ⟨"D", "2020-01-01T00:00:03.000Z", "info", []⟩

/-- A 200 response with an empty body. -/
def resp200 : Response := ⟨200, "", none⟩

/-- A 500 response with a diagnostic body. -/
def resp500 : Response := ⟨500, "hub unavailable", none⟩

/-- The sink answers 200. -/
def ok200 : PostResult := PostResult.answered resp200

/-- A record with a secret field. -/
def sampleRecord : Entry :=
  ⟨"login", InfoLevel, 0,
    [("password", Value.ofString "hunter2"), ("user", ⟨false, none, some "u1", "user#1"⟩)]⟩

/-- A filter that masks the value. -/
def maskFilter : Value → Value := fun _ => Value.ofString "***"

/-- A configuration that ignores the field `password`. -/
def ignoringConfig : Config :=
  ⟨"http://hub.local/logs", ["frontend"], [], [("password", ())], [], 2, 0, 0⟩

/-- The hook `NewWithConfig` builds from `ignoringConfig`. -/
def ignoringHook : LoggingHubHook :=
  ⟨⟨"http://hub.local/logs", ["frontend"], [], [("password", ())], [], 2, 0,
      defaultFlushInterval⟩,
    defaultLevels, pendingLogs.empty, [("password", ())], []⟩

/-- A configuration that masks the field `password`. -/
def maskingConfig : Config :=
  ⟨"http://hub.local/logs", ["frontend"], [], [], [("password", maskFilter)], 2, 0, 0⟩

/-- The hook `NewWithConfig` builds from `maskingConfig`. -/
def maskingHook : LoggingHubHook :=
  ⟨⟨"http://hub.local/logs", ["frontend"], [], [], [("password", maskFilter)], 2, 0,
      defaultFlushInterval⟩,
    defaultLevels, pendingLogs.empty, [], [("password", maskFilter)]⟩

/-! ## Buffer lemmas -/

theorem wrapInt_of_inRange (x : Int)
    (h1 : -9223372036854775808 ≤ x) (h2 : x < 9223372036854775808) : wrapInt x = x := by
  unfold wrapInt
  omega

theorem wrapInt_add_wrapInt (a b : Int) : wrapInt (a + wrapInt b) = wrapInt (a + b) := by
  unfold wrapInt
  omega

theorem wrapInt_wrapInt_add (a b : Int) : wrapInt (wrapInt a + b) = wrapInt (a + b) := by
  unfold wrapInt
  omega

theorem getSize_eq (e : LoggingHubEntry) :
    getSize e = wrapInt (len e.Log + len e.Time + len e.Level) := by
  unfold getSize goAdd
  rw [wrapInt_wrapInt_add]

theorem run_conservation (calls : List BufferCall) :
    ∀ pl : pendingLogs,
      (pl.run calls).2.flatten ++ (pl.run calls).1.items = pl.items ++ appended calls := by
  induction calls with
  | nil => intro pl; simp [pendingLogs.run, appended]
  | cons c rest ih =>
    intro pl
    cases c with
    | appendLog e =>
      simp only [pendingLogs.run, appended]
      rw [ih]
      simp [pendingLogs.appendLog]
    | flush =>
      simp only [pendingLogs.run, appended, List.flatten_cons, List.append_assoc]
      rw [ih]
      simp [pendingLogs.flush]

/-! ## Claims on the buffer -/

/-- C1: for every sequence of `appendLog` and `flush` calls on a buffer that
starts empty, the flush results concatenated in call order, followed by the
entries still pending, are exactly the appended entries in arrival order. -/
theorem flush_results_partition_appended (calls : List BufferCall) :
    ((pendingLogs.empty.run calls).2.flatten ++ (pendingLogs.empty.run calls).1.items
      = appended calls) := by
  have h := run_conservation calls pendingLogs.empty
  simpa [pendingLogs.empty] using h

/-- C2: `appendLog(e)` leaves the pending sequence equal to the previous one
with `e` at the end and returns the previous count plus one together with the
previous running total plus `len(e.Log) + len(e.Time) + len(e.Level)` (Go `int`
addition, which is the exact sum whenever that sum is representable); the field
map of the entry has no influence on the returned pair. -/
theorem appendLog_spec (pl : pendingLogs) (e : LoggingHubEntry) :
    (pl.appendLog e).1.items = pl.items ++ [e]
    ∧ (pl.appendLog e).2.1 = (pl.items.length : Int) + 1
    ∧ (pl.appendLog e).2.2 = wrapInt (pl.totalSize + len e.Log + len e.Time + len e.Level)
    ∧ (pl.appendLog e).1.totalSize = (pl.appendLog e).2.2
    ∧ (-9223372036854775808 ≤ pl.totalSize + len e.Log + len e.Time + len e.Level
        ∧ pl.totalSize + len e.Log + len e.Time + len e.Level < 9223372036854775808 →
        (pl.appendLog e).2.2 = pl.totalSize + len e.Log + len e.Time + len e.Level)
    ∧ (∀ fields : GoMap String,
        (pl.appendLog ⟨e.Log, e.Time, e.Level, fields⟩).2 = (pl.appendLog e).2) := by
  have hsum : goAdd pl.totalSize (getSize e)
      = wrapInt (pl.totalSize + len e.Log + len e.Time + len e.Level) := by
    rw [getSize_eq]
    unfold goAdd
    rw [wrapInt_add_wrapInt]
    congr 1
    ring
  refine ⟨rfl, ?_, hsum, rfl, ?_, ?_⟩
  · simp [pendingLogs.appendLog]
  · rintro ⟨h1, h2⟩
    show goAdd pl.totalSize (getSize e) = _
    rw [hsum]
    exact wrapInt_of_inRange _ h1 h2
  · intro fields
    simp [pendingLogs.appendLog, getSize]

/-! ## Map lemmas -/

theorem GoMap.get?_set {α : Type} (m : GoMap α) (k k' : String) (v : α) :
    (m.set k v).get? k' = if k = k' then some v else m.get? k' := by
  induction m with
  | nil => simp [GoMap.set, GoMap.get?]
  | cons p rest ih =>
    obtain ⟨a, b⟩ := p
    by_cases hak : a = k
    · subst hak
      by_cases hk : a = k' <;> simp [GoMap.set, GoMap.get?, hk]
    · by_cases hk : k = k'
      · subst hk
        simp [GoMap.set, GoMap.get?, hak, ih]
      · by_cases hak' : a = k'
        · subst hak'
          simp [GoMap.set, GoMap.get?, hak, hk]
        · simp [GoMap.set, GoMap.get?, hak, hak', hk, ih]

theorem GoMap.mem_keys_iff {α : Type} (m : GoMap α) (k : String) :
    k ∈ m.keys ↔ (m.get? k).isSome = true := by
  induction m with
  | nil => simp [GoMap.keys, GoMap.get?]
  | cons p rest ih =>
    obtain ⟨a, b⟩ := p
    by_cases hak : a = k
    · simp [GoMap.keys, GoMap.get?, hak]
    · have hka : ¬ k = a := fun h => hak h.symm
      simp only [GoMap.keys] at ih
      simp [GoMap.keys, GoMap.get?, hak, hka, ih]

theorem GoMap.get?_eq_none_iff {α : Type} (m : GoMap α) (k : String) :
    m.get? k = none ↔ k ∉ m.keys := by
  rw [GoMap.mem_keys_iff]
  cases m.get? k <;> simp

theorem GoMap.get?_of_nodup {α : Type} (m : GoMap α) (k : String) (v : α)
    (hnd : m.keys.Nodup) (hmem : (k, v) ∈ m) : m.get? k = some v := by
  induction m with
  | nil => simp at hmem
  | cons p rest ih =>
    obtain ⟨a, b⟩ := p
    simp only [GoMap.keys, List.map_cons, List.nodup_cons] at hnd
    by_cases hak : a = k
    · subst hak
      rcases List.mem_cons.mp hmem with h | h
      · cases h
        simp [GoMap.get?]
      · exact absurd (List.mem_map_of_mem Prod.fst h) hnd.1
    · rcases List.mem_cons.mp hmem with h | h
      · cases h
        exact absurd rfl hak
      · simp only [GoMap.get?, hak, if_false]
        exact ih hnd.2 h

theorem GoMap.mem_of_get? {α : Type} (m : GoMap α) (k : String) (v : α)
    (h : m.get? k = some v) : (k, v) ∈ m := by
  induction m with
  | nil => simp [GoMap.get?] at h
  | cons p rest ih =>
    obtain ⟨a, b⟩ := p
    by_cases hak : a = k
    · subst hak
      simp [GoMap.get?] at h
      subst h
      exact List.mem_cons_self _ _
    · simp only [GoMap.get?, hak, if_false] at h
      exact List.mem_cons_of_mem _ (ih h)

theorem GoMap.copyInto_get?_isSome {α : Type} (src : GoMap α) (k : String) :
    ∀ dst : GoMap α, ((GoMap.copyInto src dst).get? k).isSome
      = ((dst.get? k).isSome || (src.get? k).isSome) := by
  induction src with
  | nil => intro dst; simp [GoMap.copyInto, GoMap.get?]
  | cons p rest ih =>
    intro dst
    obtain ⟨a, b⟩ := p
    have h := ih (dst.set a b)
    simp only [GoMap.copyInto, List.foldl_cons] at h ⊢
    rw [h, GoMap.get?_set]
    by_cases hak : a = k <;> simp [GoMap.get?, hak]

theorem GoMap.copyInto_get?_of_not_mem {α : Type} (src : GoMap α) (k : String)
    (hk : k ∉ src.keys) : ∀ dst : GoMap α, (GoMap.copyInto src dst).get? k = dst.get? k := by
  induction src with
  | nil => intro dst; simp [GoMap.copyInto]
  | cons p rest ih =>
    intro dst
    obtain ⟨a, b⟩ := p
    simp only [GoMap.keys, List.map_cons, List.mem_cons, not_or] at hk
    have h := ih hk.2 (dst.set a b)
    simp only [GoMap.copyInto, List.foldl_cons] at h ⊢
    rw [h, GoMap.get?_set]
    have hak : ¬ a = k := fun e => hk.1 e.symm
    simp [hak]

theorem GoMap.copyInto_get?_of_nodup {α : Type} (src : GoMap α) (k : String) (v : α)
    (hnd : src.keys.Nodup) (hget : src.get? k = some v) :
    ∀ dst : GoMap α, (GoMap.copyInto src dst).get? k = some v := by
  induction src with
  | nil => simp [GoMap.get?] at hget
  | cons p rest ih =>
    intro dst
    obtain ⟨a, b⟩ := p
    simp only [GoMap.keys, List.map_cons, List.nodup_cons] at hnd
    by_cases hak : a = k
    · subst hak
      simp [GoMap.get?] at hget
      subst hget
      have h := GoMap.copyInto_get?_of_not_mem rest a hnd.1 (dst.set a b)
      simp only [GoMap.copyInto, List.foldl_cons] at h ⊢
      rw [h, GoMap.get?_set]
      simp
    · simp only [GoMap.get?, hak, if_false] at hget
      have h := ih hnd.2 hget (dst.set a b)
      simpa only [GoMap.copyInto, List.foldl_cons] using h

/-! ## The field filter -/

theorem fireField_get? (lib : Stdlib) (hook : LoggingHubHook) (fields : GoMap String)
    (kv : String × Value) (k : String) :
    (hook.fireField lib fields kv).get? k =
      if kv.1 = k ∧ hook.ignoreFields.get? kv.1 = none then
        some (lib.Sprintf (match hook.filters.get? kv.1 with
          | some fn => fn kv.2
          | none => formatData kv.2))
      else fields.get? k := by
  unfold LoggingHubHook.fireField
  cases hig : hook.ignoreFields.get? kv.1 with
  | some u => simp
  | none =>
    simp only [GoMap.get?_set, and_true]

theorem fire_fold_isSome (lib : Stdlib) (hook : LoggingHubHook) (k : String)
    (data : GoMap Value) :
    ∀ acc : GoMap String,
      ((data.foldl (hook.fireField lib) acc).get? k).isSome
        = ((acc.get? k).isSome
            || ((data.get? k).isSome && (hook.ignoreFields.get? k).isNone)) := by
  induction data with
  | nil => intro acc; simp [GoMap.get?]
  | cons p rest ih =>
    intro acc
    obtain ⟨a, b⟩ := p
    rw [List.foldl_cons, ih, fireField_get?]
    by_cases hak : a = k
    · subst hak
      cases hig : hook.ignoreFields.get? a <;> simp [GoMap.get?]
    · simp [GoMap.get?, hak]

theorem fire_fold_of_not_mem (lib : Stdlib) (hook : LoggingHubHook) (k : String)
    (data : GoMap Value) (hk : k ∉ data.keys) :
    ∀ acc : GoMap String, (data.foldl (hook.fireField lib) acc).get? k = acc.get? k := by
  induction data with
  | nil => intro acc; rfl
  | cons p rest ih =>
    intro acc
    obtain ⟨a, b⟩ := p
    simp only [GoMap.keys, List.map_cons, List.mem_cons, not_or] at hk
    rw [List.foldl_cons, ih hk.2, fireField_get?]
    have hak : ¬ a = k := fun e => hk.1 e.symm
    simp [hak]

theorem fire_fold_filtered (lib : Stdlib) (hook : LoggingHubHook) (k : String) (v : Value)
    (fn : Value → Value) (hig : hook.ignoreFields.get? k = none)
    (hfn : hook.filters.get? k = some fn) (data : GoMap Value)
    (hnd : data.keys.Nodup) (hget : data.get? k = some v) :
    ∀ acc : GoMap String,
      (data.foldl (hook.fireField lib) acc).get? k = some (lib.Sprintf (fn v)) := by
  induction data with
  | nil => simp [GoMap.get?] at hget
  | cons p rest ih =>
    intro acc
    obtain ⟨a, b⟩ := p
    simp only [GoMap.keys, List.map_cons, List.nodup_cons] at hnd
    by_cases hak : a = k
    · subst hak
      simp [GoMap.get?] at hget
      subst hget
      rw [List.foldl_cons, fire_fold_of_not_mem lib hook a rest hnd.1, fireField_get?]
      simp [hig, hfn]
    · simp only [GoMap.get?, hak, if_false] at hget
      rw [List.foldl_cons]
      exact ih hnd.2 hget _

/-- C9: the field map of the entry `Fire` submits has as keys exactly the field
names of the record that are not in the ignore set of the hook, whatever the
values and the registered filters; a name added by `AddIgnore`, or present in
the configured ignore set of a hook built by `NewWithConfig`, never appears. -/
theorem Fire_keys_eq_unignored (lib : Stdlib) (hook : LoggingHubHook) (entry : Entry)
    (k : String) :
    (k ∈ (hook.Fire lib entry).Fields.keys ↔ k ∈ entry.Data.keys ∧ k ∉ hook.ignoreFields.keys)
    ∧ k ∉ ((hook.AddIgnore k).Fire lib entry).Fields.keys
    ∧ (∀ (conf : Config) (h : LoggingHubHook), NewWithConfig conf = Except.ok h →
        k ∈ conf.DefaultIgnoreFields.keys → k ∉ (h.Fire lib entry).Fields.keys) := by
  have key : ∀ h : LoggingHubHook,
      (k ∈ (h.Fire lib entry).Fields.keys ↔ k ∈ entry.Data.keys ∧ k ∉ h.ignoreFields.keys) := by
    intro h
    rw [GoMap.mem_keys_iff, GoMap.mem_keys_iff, ← GoMap.get?_eq_none_iff]
    show ((entry.Data.foldl (h.fireField lib) []).get? k).isSome = true ↔ _
    rw [fire_fold_isSome]
    cases h.ignoreFields.get? k <;> simp [GoMap.get?]
  refine ⟨key hook, ?_, ?_⟩
  · rw [key]
    rintro ⟨_, hnot⟩
    apply hnot
    rw [GoMap.mem_keys_iff]
    show ((hook.ignoreFields.set k ()).get? k).isSome = true
    rw [GoMap.get?_set]
    simp
  · intro conf h hnew hk
    rw [key]
    rintro ⟨_, hnot⟩
    apply hnot
    unfold NewWithConfig at hnew
    split at hnew
    · cases hnew
    · split at hnew
      · cases hnew
      · injection hnew with hnew
        subst hnew
        rw [GoMap.mem_keys_iff] at hk ⊢
        show ((GoMap.copyInto _ []).get? k).isSome = true
        rw [GoMap.copyInto_get?_isSome]
        split <;> simp [hk]

/-- C10: for a field name `k` of the record that has a registered filter `fn`
and is not in the ignore set, the value of `k` in the entry `Fire` submits is
the rendering of `fn` applied to the raw value (`formatData` is not involved);
this holds for a filter registered by `AddFilter` and for one taken from the
configuration by `NewWithConfig`. -/
theorem Fire_filtered_field (lib : Stdlib) (hook : LoggingHubHook) (entry : Entry)
    (k : String) (v : Value) (fn : Value → Value)
    (hnd : entry.Data.keys.Nodup) (hget : entry.Data.get? k = some v)
    (hig : hook.ignoreFields.get? k = none) :
    (hook.filters.get? k = some fn →
        (hook.Fire lib entry).Fields.get? k = some (lib.Sprintf (fn v)))
    ∧ ((hook.AddFilter k fn).Fire lib entry).Fields.get? k = some (lib.Sprintf (fn v))
    ∧ (∀ (conf : Config) (h : LoggingHubHook), NewWithConfig conf = Except.ok h →
        conf.DefaultFilters.keys.Nodup → conf.DefaultFilters.get? k = some fn →
        conf.DefaultIgnoreFields.get? k = none →
        (h.Fire lib entry).Fields.get? k = some (lib.Sprintf (fn v))) := by
  refine ⟨?_, ?_, ?_⟩
  · intro hfn
    exact fire_fold_filtered lib hook k v fn hig hfn entry.Data hnd hget []
  · refine fire_fold_filtered lib (hook.AddFilter k fn) k v fn hig ?_ entry.Data hnd hget []
    show (hook.filters.set k fn).get? k = some fn
    rw [GoMap.get?_set]
    simp
  · intro conf h hnew hfnd hfget hcig
    unfold NewWithConfig at hnew
    split at hnew
    · cases hnew
    · split at hnew
      · cases hnew
      · injection hnew with hnew
        subst hnew
        refine fire_fold_filtered lib _ k v fn ?_ ?_ entry.Data hnd hget []
        · show (GoMap.copyInto _ []).get? k = none
          have h1 := GoMap.copyInto_get?_isSome
            (if conf.FlushInterval = 0 then
              (⟨conf.LoggingHubURL, conf.Senders, conf.LogLevels, conf.DefaultIgnoreFields,
                conf.DefaultFilters, conf.BatchSizeInLines, conf.RequestSizeLimit,
                defaultFlushInterval⟩ : Config)
             else conf).DefaultIgnoreFields k []
          have h2 : (if conf.FlushInterval = 0 then
              (⟨conf.LoggingHubURL, conf.Senders, conf.LogLevels, conf.DefaultIgnoreFields,
                conf.DefaultFilters, conf.BatchSizeInLines, conf.RequestSizeLimit,
                defaultFlushInterval⟩ : Config)
             else conf).DefaultIgnoreFields = conf.DefaultIgnoreFields := by
            split <;> rfl
          rw [h2] at h1
          rw [hcig] at h1
          simp only [GoMap.get?, Option.isSome_none, Bool.or_self] at h1
          cases hc : (GoMap.copyInto conf.DefaultIgnoreFields []).get? k with
          | none => rw [h2]; exact hc
          | some u => rw [hc] at h1; simp at h1
        · show (GoMap.copyInto _ []).get? k = some fn
          have h2 : (if conf.FlushInterval = 0 then
              (⟨conf.LoggingHubURL, conf.Senders, conf.LogLevels, conf.DefaultIgnoreFields,
                conf.DefaultFilters, conf.BatchSizeInLines, conf.RequestSizeLimit,
                defaultFlushInterval⟩ : Config)
             else conf).DefaultFilters = conf.DefaultFilters := by
            split <;> rfl
          rw [h2]
          exact GoMap.copyInto_get?_of_nodup conf.DefaultFilters k fn hfnd hfget []

/-! ## Delivery lemmas -/

theorem deliveries_append (a b : List Effect) :
    deliveries (a ++ b) = deliveries a ++ deliveries b := by
  induction a with
  | nil => rfl
  | cons x rest ih => cases x <;> simp [deliveries, ih]

theorem posts_append (a b : List Effect) : posts (a ++ b) = posts a ++ posts b := by
  induction a with
  | nil => rfl
  | cons x rest ih => cases x <;> simp [posts, ih]

theorem logs_append (a b : List Effect) : logs (a ++ b) = logs a ++ logs b := by
  induction a with
  | nil => rfl
  | cons x rest ih => cases x <;> simp [logs, ih]

theorem Flush_hook (hook : LoggingHubHook) (net : PostResult) :
    (hook.Flush net).hook = hook.withPending ⟨[], hook.pendingLogs.totalSize⟩ := by
  unfold LoggingHubHook.Flush
  simp only [pendingLogs.flush]
  split
  · rfl
  · split
    · rfl
    · split <;> rfl

theorem Flush_empty (hook : LoggingHubHook) (net : PostResult)
    (h : hook.pendingLogs.items = []) :
    (hook.Flush net).effects = [] ∧ (hook.Flush net).outcome = Outcome.returned := by
  unfold LoggingHubHook.Flush
  simp [pendingLogs.flush, h]

theorem Flush_posts (hook : LoggingHubHook) (net : PostResult)
    (h : hook.pendingLogs.items ≠ []) :
    posts (hook.Flush net).effects =
      [Effect.post hook.config.LoggingHubURL "application/json"
        ⟨hook.config.Senders, hook.pendingLogs.items⟩] := by
  have hlen : ¬ hook.pendingLogs.items.length = 0 := by
    simpa [List.length_eq_zero] using h
  obtain ⟨resp, err⟩ := net
  unfold LoggingHubHook.Flush
  simp only [pendingLogs.flush, hlen, if_false]
  cases resp with
  | none => cases err <;> simp [posts]
  | some r =>
    by_cases hs : r.StatusCode ≥ 300
    · cases err <;> cases hr : r.ReadErr <;> simp [posts, hs, getHTTPErrorMsg, hr]
    · cases err <;> simp [posts, hs]

theorem Flush_deliveries (hook : LoggingHubHook) (net : PostResult)
    (h : hook.pendingLogs.items ≠ []) :
    deliveries (hook.Flush net).effects = [hook.pendingLogs.items] := by
  have hlen : ¬ hook.pendingLogs.items.length = 0 := by
    simpa [List.length_eq_zero] using h
  obtain ⟨resp, err⟩ := net
  unfold LoggingHubHook.Flush
  simp only [pendingLogs.flush, hlen, if_false]
  cases resp with
  | none => cases err <;> simp [deliveries]
  | some r =>
    by_cases hs : r.StatusCode ≥ 300
    · cases err <;> cases hr : r.ReadErr <;> simp [deliveries, hs, getHTTPErrorMsg, hr]
    · cases err <;> simp [deliveries, hs]

theorem Flush_outcome_of_resp (hook : LoggingHubHook) (r : Response) (err : Option String) :
    (hook.Flush ⟨some r, err⟩).outcome = Outcome.returned := by
  unfold LoggingHubHook.Flush
  simp only [pendingLogs.flush]
  split
  · rfl
  · split <;> rfl

theorem Flush_outcome_of_nil (hook : LoggingHubHook) (err : Option String)
    (h : hook.pendingLogs.items ≠ []) :
    (hook.Flush ⟨none, err⟩).outcome = Outcome.panicked := by
  have hlen : ¬ hook.pendingLogs.items.length = 0 := by
    simpa [List.length_eq_zero] using h
  unfold LoggingHubHook.Flush
  simp only [pendingLogs.flush, hlen, if_false]

theorem RunStep_entry_hook (hook : LoggingHubHook) (e : LoggingHubEntry) (net : PostResult) :
    (hook.RunStep (Event.entry e) net).hook.config = hook.config
    ∧ (hook.RunStep (Event.entry e) net).hook.pendingLogs.items =
        (if (hook.pendingLogs.items.length : Int) + 1 ≥ hook.config.BatchSizeInLines
          then [] else hook.pendingLogs.items ++ [e]) := by
  unfold LoggingHubHook.RunStep
  simp only [pendingLogs.appendLog, List.length_append, List.length_singleton, Nat.cast_add,
    Nat.cast_one]
  split
  · rw [Flush_hook]
    exact ⟨rfl, rfl⟩
  · exact ⟨rfl, rfl⟩

theorem RunStep_entry_below (hook : LoggingHubHook) (e : LoggingHubEntry) (net : PostResult)
    (h : ¬ (hook.pendingLogs.items.length : Int) + 1 ≥ hook.config.BatchSizeInLines) :
    (hook.RunStep (Event.entry e) net).effects = []
    ∧ (hook.RunStep (Event.entry e) net).outcome = Outcome.returned := by
  unfold LoggingHubHook.RunStep
  simp only [pendingLogs.appendLog, List.length_append, List.length_singleton, Nat.cast_add,
    Nat.cast_one, h, if_false, and_self]

theorem RunStep_entry_reached (hook : LoggingHubHook) (e : LoggingHubEntry) (net : PostResult)
    (h : (hook.pendingLogs.items.length : Int) + 1 ≥ hook.config.BatchSizeInLines) :
    hook.RunStep (Event.entry e) net
      = (hook.withPending (hook.pendingLogs.appendLog e).1).Flush net := by
  unfold LoggingHubHook.RunStep
  simp only [pendingLogs.appendLog, List.length_append, List.length_singleton, Nat.cast_add,
    Nat.cast_one, h, if_true]

/-! ## The scheduler -/

theorem Run_cons_returned (hook : LoggingHubHook) (ev : Event) (net : PostResult)
    (rest : List (Event × PostResult))
    (h : (hook.RunStep ev net).outcome = Outcome.returned) :
    hook.Run ((ev, net) :: rest) =
      ⟨((hook.RunStep ev net).hook.Run rest).hook,
       (hook.RunStep ev net).effects ++ ((hook.RunStep ev net).hook.Run rest).effects,
       ((hook.RunStep ev net).hook.Run rest).halted⟩ := by
  rw [LoggingHubHook.Run]
  simp [h]

theorem Run_cons_panicked (hook : LoggingHubHook) (ev : Event) (net : PostResult)
    (rest : List (Event × PostResult))
    (h : (hook.RunStep ev net).outcome = Outcome.panicked) :
    hook.Run ((ev, net) :: rest) =
      ⟨(hook.RunStep ev net).hook, (hook.RunStep ev net).effects, true⟩ := by
  rw [LoggingHubHook.Run]
  simp [h]

theorem RunStep_entry_deliveries (hook : LoggingHubHook) (e : LoggingHubEntry)
    (net : PostResult) :
    deliveries (hook.RunStep (Event.entry e) net).effects =
      (if (hook.pendingLogs.items.length : Int) + 1 ≥ hook.config.BatchSizeInLines
        then [hook.pendingLogs.items ++ [e]] else []) := by
  by_cases h : (hook.pendingLogs.items.length : Int) + 1 ≥ hook.config.BatchSizeInLines
  · rw [RunStep_entry_reached hook e net h, if_pos h]
    exact Flush_deliveries (hook.withPending (hook.pendingLogs.appendLog e).1) net (by
      show hook.pendingLogs.items ++ [e] ≠ []
      simp)
  · rw [(RunStep_entry_below hook e net h).1, if_neg h]
    rfl

theorem RunStep_entry_outcome (hook : LoggingHubHook) (e : LoggingHubEntry) (r : Response)
    (err : Option String) :
    (hook.RunStep (Event.entry e) ⟨some r, err⟩).outcome = Outcome.returned := by
  by_cases h : (hook.pendingLogs.items.length : Int) + 1 ≥ hook.config.BatchSizeInLines
  · rw [RunStep_entry_reached hook e _ h]
    exact Flush_outcome_of_resp _ r err
  · exact (RunStep_entry_below hook e _ h).2

theorem flatten_length_of_const (t : Int) (D : List (List LoggingHubEntry))
    (h : ∀ b ∈ D, (b.length : Int) = t) : ((D.flatten.length : Nat) : Int) = (D.length : Int) * t := by
  induction D with
  | nil => simp
  | cons b rest ih =>
    have hb := h b (List.mem_cons_self _ _)
    have hr := ih (fun x hx => h x (List.mem_cons_of_mem _ hx))
    simp only [List.flatten_cons, List.length_append, List.length_cons, Nat.cast_add,
      Nat.cast_one, hb, hr]
    ring

theorem Run_arrivals_inv (t : Int) (l : List (LoggingHubEntry × Response)) :
    ∀ hook : LoggingHubHook, hook.config.BatchSizeInLines = t →
      (hook.pendingLogs.items.length : Int) < t →
      (hook.Run (answeredArrivals l)).halted = false
      ∧ (deliveries (hook.Run (answeredArrivals l)).effects).flatten
          ++ (hook.Run (answeredArrivals l)).hook.pendingLogs.items
          = hook.pendingLogs.items ++ l.map Prod.fst
      ∧ (∀ b ∈ deliveries (hook.Run (answeredArrivals l)).effects, (b.length : Int) = t)
      ∧ ((hook.Run (answeredArrivals l)).hook.pendingLogs.items.length : Int) < t := by
  induction l with
  | nil =>
    intro hook _ hlt
    simp [answeredArrivals, arrivals, LoggingHubHook.Run, deliveries, hlt]
  | cons p rest ih =>
    intro hook hcfg hlt
    obtain ⟨e, resp⟩ := p
    have hout := RunStep_entry_outcome hook e resp none
    have hhook := RunStep_entry_hook hook e ⟨some resp, none⟩
    have hdel := RunStep_entry_deliveries hook e ⟨some resp, none⟩
    have hrun : hook.Run (answeredArrivals ((e, resp) :: rest)) =
        hook.Run ((Event.entry e, ⟨some resp, none⟩) :: answeredArrivals rest) := rfl
    rw [hrun, Run_cons_returned hook _ _ _ hout]
    simp only [deliveries_append, hdel]
    by_cases hreach : (hook.pendingLogs.items.length : Int) + 1 ≥ hook.config.BatchSizeInLines
    · rw [if_pos hreach] at hhook
      have hih := ih (hook.RunStep (Event.entry e) ⟨some resp, none⟩).hook
        (by rw [hhook.1]; exact hcfg) (by rw [hhook.2]; simp; omega)
      rw [hhook.2] at hih
      rw [if_pos hreach]
      refine ⟨hih.1, ?_, ?_, hih.2.2.2⟩
      · have h2 := hih.2.1
        simp only [List.nil_append] at h2
        simp only [List.singleton_append, List.flatten_cons, List.append_assoc,
          List.map_cons, List.cons_append, List.nil_append]
        rw [h2]
      · intro b hb
        rcases List.mem_append.mp hb with hb | hb
        · simp only [List.mem_singleton] at hb
          subst hb
          simp only [List.length_append, List.length_singleton, Nat.cast_add, Nat.cast_one]
          omega
        · exact hih.2.2.1 b hb
    · rw [if_neg hreach] at hhook
      have hih := ih (hook.RunStep (Event.entry e) ⟨some resp, none⟩).hook
        (by rw [hhook.1]; exact hcfg) (by rw [hhook.2]; simp; omega)
      rw [hhook.2] at hih
      rw [if_neg hreach]
      refine ⟨hih.1, ?_, ?_, hih.2.2.2⟩
      · have h2 := hih.2.1
        simp only [List.nil_append, h2, List.map_cons, List.append_assoc, List.singleton_append]
      · intro b hb
        exact hih.2.2.1 b (by simpa using hb)

theorem Run_arrivals_below (l : List (LoggingHubEntry × PostResult)) :
    ∀ hook : LoggingHubHook,
      (hook.pendingLogs.items.length : Int) + (l.length : Int) < hook.config.BatchSizeInLines →
      (hook.Run (arrivals l)).effects = []
      ∧ (hook.Run (arrivals l)).halted = false
      ∧ (hook.Run (arrivals l)).hook.config = hook.config
      ∧ (hook.Run (arrivals l)).hook.pendingLogs.items
          = hook.pendingLogs.items ++ l.map Prod.fst := by
  induction l with
  | nil =>
    intro hook _
    simp [arrivals, LoggingHubHook.Run]
  | cons p rest ih =>
    intro hook hlt
    obtain ⟨e, net⟩ := p
    simp only [List.length_cons, Nat.cast_add, Nat.cast_one] at hlt
    have hreach : ¬ (hook.pendingLogs.items.length : Int) + 1 ≥ hook.config.BatchSizeInLines := by
      omega
    have hbelow := RunStep_entry_below hook e net hreach
    have hhook := RunStep_entry_hook hook e net
    rw [if_neg hreach] at hhook
    have hrun : hook.Run (arrivals ((e, net) :: rest)) =
        hook.Run ((Event.entry e, net) :: arrivals rest) := rfl
    rw [hrun, Run_cons_returned hook _ _ _ hbelow.2]
    have hih := ih (hook.RunStep (Event.entry e) net).hook (by
      rw [hhook.1, hhook.2]
      simp only [List.length_append, List.length_singleton, Nat.cast_add, Nat.cast_one]
      omega)
    refine ⟨?_, hih.2.1, ?_, ?_⟩
    · simp only [hbelow.1, hih.1, List.append_nil]
    · simp only [hih.2.2.1, hhook.1]
    · simp only [hih.2.2.2, hhook.2, List.map_cons, List.append_assoc, List.singleton_append]

/-! ## Claims on the scheduler and the delivery -/

/-- C3: one iteration of `Run` on the arrival of `e` with pending sequence `p`
and threshold `t`: if `len(p)+1 >= t` exactly one batch is posted, made of `p`
followed by `e`, and the buffer is left empty; otherwise nothing is delivered
and the buffer is `p` followed by `e`. With `t = 2`, arrivals `A`, `B` deliver
`[A, B]`, a following `C` stays pending, and the next timer tick delivers `[C]`. -/
theorem RunStep_entry_threshold (hook : LoggingHubHook) (e : LoggingHubEntry)
    (net : PostResult) :
    (if (hook.pendingLogs.items.length : Int) + 1 ≥ hook.config.BatchSizeInLines then
        posts (hook.RunStep (Event.entry e) net).effects
          = [Effect.post hook.config.LoggingHubURL "application/json"
              ⟨hook.config.Senders, hook.pendingLogs.items ++ [e]⟩]
        ∧ deliveries (hook.RunStep (Event.entry e) net).effects = [hook.pendingLogs.items ++ [e]]
        ∧ (hook.RunStep (Event.entry e) net).hook.pendingLogs.items = []
      else
        (hook.RunStep (Event.entry e) net).effects = []
        ∧ (hook.RunStep (Event.entry e) net).outcome = Outcome.returned
        ∧ (hook.RunStep (Event.entry e) net).hook.pendingLogs.items
            = hook.pendingLogs.items ++ [e])
    ∧ (∀ (h0 : LoggingHubHook) (A B C : LoggingHubEntry) (nA nC : PostResult)
        (r1 r2 : Response),
        h0.config.BatchSizeInLines = 2 → h0.pendingLogs.items = [] →
        deliveries (h0.Run [(Event.entry A, nA), (Event.entry B, PostResult.answered r1),
            (Event.entry C, nC)]).effects = [[A, B]]
        ∧ (h0.Run [(Event.entry A, nA), (Event.entry B, PostResult.answered r1),
            (Event.entry C, nC)]).hook.pendingLogs.items = [C]
        ∧ (h0.Run [(Event.entry A, nA), (Event.entry B, PostResult.answered r1),
            (Event.entry C, nC)]).halted = false
        ∧ deliveries (h0.Run [(Event.entry A, nA), (Event.entry B, PostResult.answered r1),
            (Event.entry C, nC), (Event.tick, PostResult.answered r2)]).effects = [[A, B], [C]]
        ∧ (h0.Run [(Event.entry A, nA), (Event.entry B, PostResult.answered r1),
            (Event.entry C, nC), (Event.tick, PostResult.answered r2)]).hook.pendingLogs.items
            = []) := by
  constructor
  · have hhook := RunStep_entry_hook hook e net
    by_cases h : (hook.pendingLogs.items.length : Int) + 1 ≥ hook.config.BatchSizeInLines
    · rw [if_pos h] at hhook ⊢
      refine ⟨?_, ?_, hhook.2⟩
      · rw [RunStep_entry_reached hook e net h]
        exact Flush_posts (hook.withPending (hook.pendingLogs.appendLog e).1) net (by
          show hook.pendingLogs.items ++ [e] ≠ []
          simp)
      · rw [RunStep_entry_deliveries, if_pos h]
    · rw [if_neg h] at hhook ⊢
      exact ⟨(RunStep_entry_below hook e net h).1, (RunStep_entry_below hook e net h).2, hhook.2⟩
  · intro h0 A B C nA nC r1 r2 hcfg hemp
    -- arrival of A: below the threshold
    have hr1 : ¬ (h0.pendingLogs.items.length : Int) + 1 ≥ h0.config.BatchSizeInLines := by
      rw [hcfg, hemp]; norm_num
    have b1 := RunStep_entry_below h0 A nA hr1
    have k1 := RunStep_entry_hook h0 A nA
    rw [if_neg hr1, hemp, List.nil_append] at k1
    -- arrival of B: the threshold is reached
    have hr2 : ((h0.RunStep (Event.entry A) nA).hook.pendingLogs.items.length : Int) + 1
        ≥ (h0.RunStep (Event.entry A) nA).hook.config.BatchSizeInLines := by
      rw [k1.1, k1.2, hcfg]; norm_num
    have o2 := RunStep_entry_outcome (h0.RunStep (Event.entry A) nA).hook B r1 none
    have d2 := RunStep_entry_deliveries (h0.RunStep (Event.entry A) nA).hook B ⟨some r1, none⟩
    have k2 := RunStep_entry_hook (h0.RunStep (Event.entry A) nA).hook B ⟨some r1, none⟩
    rw [if_pos hr2] at d2 k2
    rw [k1.2] at d2
    rw [k1.1] at k2
    -- arrival of C: below the threshold again
    have hr3 : ¬ (((h0.RunStep (Event.entry A) nA).hook.RunStep (Event.entry B)
        ⟨some r1, none⟩).hook.pendingLogs.items.length : Int) + 1
        ≥ ((h0.RunStep (Event.entry A) nA).hook.RunStep (Event.entry B)
        ⟨some r1, none⟩).hook.config.BatchSizeInLines := by
      rw [k2.1, k2.2, hcfg]; norm_num
    have b3 := RunStep_entry_below _ C nC hr3
    have k3 := RunStep_entry_hook ((h0.RunStep (Event.entry A) nA).hook.RunStep (Event.entry B)
        ⟨some r1, none⟩).hook C nC
    rw [if_neg hr3, k2.2, List.nil_append] at k3
    -- the timer tick
    have hne : (((h0.RunStep (Event.entry A) nA).hook.RunStep (Event.entry B)
        ⟨some r1, none⟩).hook.RunStep (Event.entry C) nC).hook.pendingLogs.items ≠ [] := by
      rw [k3.2]; simp
    have d4 := Flush_deliveries _ ⟨some r2, none⟩ hne
    have o4 := Flush_outcome_of_resp (((h0.RunStep (Event.entry A) nA).hook.RunStep
        (Event.entry B) ⟨some r1, none⟩).hook.RunStep (Event.entry C) nC).hook r2 none
    have k4 := Flush_hook (((h0.RunStep (Event.entry A) nA).hook.RunStep
        (Event.entry B) ⟨some r1, none⟩).hook.RunStep (Event.entry C) nC).hook ⟨some r2, none⟩
    rw [k3.2] at d4
    have o4' : ((((h0.RunStep (Event.entry A) nA).hook.RunStep (Event.entry B)
        ⟨some r1, none⟩).hook.RunStep (Event.entry C) nC).hook.RunStep Event.tick
        ⟨some r2, none⟩).outcome = Outcome.returned := o4
    have d4' : deliveries ((((h0.RunStep (Event.entry A) nA).hook.RunStep (Event.entry B)
        ⟨some r1, none⟩).hook.RunStep (Event.entry C) nC).hook.RunStep Event.tick
        ⟨some r2, none⟩).effects = [[C]] := d4
    have k4' : ((((h0.RunStep (Event.entry A) nA).hook.RunStep (Event.entry B)
        ⟨some r1, none⟩).hook.RunStep (Event.entry C) nC).hook.RunStep Event.tick
        ⟨some r2, none⟩).hook.pendingLogs.items = [] := by
      show (LoggingHubHook.Flush _ _).hook.pendingLogs.items = []
      rw [k4]; rfl
    simp only [PostResult.answered]
    rw [Run_cons_returned h0 _ _ _ b1.2, Run_cons_returned _ _ _ _ o2,
      Run_cons_returned _ _ _ _ b3.2]
    rw [Run_cons_returned h0 _ _ _ b1.2, Run_cons_returned _ _ _ _ o2,
      Run_cons_returned _ _ _ _ b3.2, Run_cons_returned _ _ _ _ o4']
    simp only [LoggingHubHook.Run, deliveries_append, b1.1, b3.1, d2, d4', k3.2, k4',
      deliveries, List.append_nil, List.nil_append, List.singleton_append, and_self]

/-- C4 (fails as stated): with threshold 2 and three arrivals (3 >= 2) the only
batch delivered is `[A, B]`, not all three entries, and `C` stays pending; with
four arrivals two batches are delivered, not one. -/
theorem Run_arrivals_above_threshold_counterexample :
    ((3 : Int) ≥ (sampleHook 2).config.BatchSizeInLines)
    ∧ deliveries ((sampleHook 2).Run (answeredArrivals
        [(entryA, resp200), (entryB, resp200), (entryC, resp200)])).effects
        = [[entryA, entryB]]
    ∧ deliveries ((sampleHook 2).Run (answeredArrivals
        [(entryA, resp200), (entryB, resp200), (entryC, resp200)])).effects
        ≠ [[entryA, entryB, entryC]]
    ∧ ((sampleHook 2).Run (answeredArrivals
        [(entryA, resp200), (entryB, resp200), (entryC, resp200)])).hook.pendingLogs.items
        = [entryC]
    ∧ deliveries ((sampleHook 2).Run (answeredArrivals
        [(entryA, resp200), (entryB, resp200), (entryC, resp200), (entryD, resp200)])).effects
        = [[entryA, entryB], [entryC, entryD]] := by
  refine ⟨by decide, by rfl, ?_, by rfl, by rfl⟩
  have h : deliveries ((sampleHook 2).Run (answeredArrivals
        [(entryA, resp200), (entryB, resp200), (entryC, resp200)])).effects
        = [[entryA, entryB]] := by rfl
  rw [h]
  decide

/-- C4 (amended): for a threshold `t >= 1` and `N` arrivals from an empty buffer
with no timer tick, every POST being answered, a flush occurs each time the
pending count reaches `t`: the batches are consecutive blocks of exactly `t`
entries in arrival order, `N / t` of them, and the last `N mod t` entries stay
pending; when `N = t` exactly one batch is delivered and it holds all `N`
entries. -/
theorem Run_arrivals_batches (hook : LoggingHubHook) (l : List (LoggingHubEntry × Response))
    (hempty : hook.pendingLogs.items = []) (ht : 1 ≤ hook.config.BatchSizeInLines) :
    (hook.Run (answeredArrivals l)).halted = false
    ∧ (deliveries (hook.Run (answeredArrivals l)).effects).flatten
        ++ (hook.Run (answeredArrivals l)).hook.pendingLogs.items = l.map Prod.fst
    ∧ (∀ b ∈ deliveries (hook.Run (answeredArrivals l)).effects,
        (b.length : Int) = hook.config.BatchSizeInLines)
    ∧ ((hook.Run (answeredArrivals l)).hook.pendingLogs.items.length : Int)
        = (l.length : Int) % hook.config.BatchSizeInLines
    ∧ ((deliveries (hook.Run (answeredArrivals l)).effects).length : Int)
        = (l.length : Int) / hook.config.BatchSizeInLines
    ∧ ((l.length : Int) = hook.config.BatchSizeInLines →
        deliveries (hook.Run (answeredArrivals l)).effects = [l.map Prod.fst]
        ∧ (hook.Run (answeredArrivals l)).hook.pendingLogs.items = []) := by
  have hinv := Run_arrivals_inv hook.config.BatchSizeInLines l hook rfl (by
    rw [hempty]; simp; omega)
  rw [hempty, List.nil_append] at hinv
  obtain ⟨hhalt, hcat, hlen, hpend⟩ := hinv
  have hflat := flatten_length_of_const _ _ hlen
  have hN : (l.length : Int)
      = ((hook.Run (answeredArrivals l)).hook.pendingLogs.items.length : Int)
        + hook.config.BatchSizeInLines
          * ((deliveries (hook.Run (answeredArrivals l)).effects).length : Int) := by
    have h1 := congrArg List.length hcat
    simp only [List.length_append, List.length_map] at h1
    have h2 : ((l.length : Nat) : Int)
        = (((deliveries (hook.Run (answeredArrivals l)).effects).flatten.length : Nat) : Int)
          + ((hook.Run (answeredArrivals l)).hook.pendingLogs.items.length : Int) := by
      rw [← h1]; push_cast; ring
    rw [h2, hflat]; ring
  have hpos : 0 < hook.config.BatchSizeInLines := by omega
  have hnn : (0 : Int) ≤ ((hook.Run (answeredArrivals l)).hook.pendingLogs.items.length : Int) :=
    Int.natCast_nonneg _
  have hdm := (Int.ediv_emod_unique hpos).mpr ⟨hN.symm, hnn, hpend⟩
  refine ⟨hhalt, hcat, hlen, hdm.2.symm, hdm.1.symm, ?_⟩
  intro hNt
  have hq : ((deliveries (hook.Run (answeredArrivals l)).effects).length : Int) = 1 := by
    rw [← hdm.1, hNt]
    exact Int.ediv_self (by omega)
  have hr : ((hook.Run (answeredArrivals l)).hook.pendingLogs.items.length : Int) = 0 := by
    rw [← hdm.2, hNt]
    exact Int.emod_self
  have hnil : (hook.Run (answeredArrivals l)).hook.pendingLogs.items = [] := by
    apply List.eq_nil_of_length_eq_zero
    exact_mod_cast hr
  have hone : (deliveries (hook.Run (answeredArrivals l)).effects).length = 1 := by
    exact_mod_cast hq
  obtain ⟨b, hb⟩ := List.length_eq_one.mp hone
  rw [hb, hnil] at hcat
  simp only [List.flatten_cons, List.flatten_nil, List.append_nil] at hcat
  rw [hb, hcat]
  exact ⟨rfl, hnil⟩

theorem Run_arrivals_batches_witness :
    (deliveries ((sampleHook 2).Run (answeredArrivals
        [(entryA, resp200), (entryB, resp500), (entryC, resp200)])).effects).flatten
      ++ ((sampleHook 2).Run (answeredArrivals
        [(entryA, resp200), (entryB, resp500), (entryC, resp200)])).hook.pendingLogs.items
      = [entryA, entryB, entryC]
    ∧ ((deliveries ((sampleHook 2).Run (answeredArrivals
        [(entryA, resp200), (entryB, resp500), (entryC, resp200)])).effects).length : Int)
      = 3 / 2 :=
  ⟨(Run_arrivals_batches (sampleHook 2)
      [(entryA, resp200), (entryB, resp500), (entryC, resp200)] rfl (by decide)).2.1,
   (Run_arrivals_batches (sampleHook 2)
      [(entryA, resp200), (entryB, resp500), (entryC, resp200)] rfl (by decide)).2.2.2.2.1⟩

/-- C5: when fewer than `t` entries arrive from an empty buffer, nothing is
delivered before the timer tick; the tick then flushes exactly the pending
entries, in arrival order, as one batch, and delivers nothing when none are
pending. -/
theorem Run_below_threshold_then_tick (hook : LoggingHubHook)
    (l : List (LoggingHubEntry × PostResult)) (net : PostResult)
    (hempty : hook.pendingLogs.items = [])
    (hlt : (l.length : Int) < hook.config.BatchSizeInLines) :
    (hook.Run (arrivals l)).effects = []
    ∧ (hook.Run (arrivals l)).halted = false
    ∧ (hook.Run (arrivals l)).hook.pendingLogs.items = l.map Prod.fst
    ∧ deliveries ((hook.Run (arrivals l)).hook.RunStep Event.tick net).effects
        = (if l.length = 0 then [] else [l.map Prod.fst])
    ∧ posts ((hook.Run (arrivals l)).hook.RunStep Event.tick net).effects
        = (if l.length = 0 then [] else
            [Effect.post hook.config.LoggingHubURL "application/json"
              ⟨hook.config.Senders, l.map Prod.fst⟩])
    ∧ ((hook.Run (arrivals l)).hook.RunStep Event.tick net).hook.pendingLogs.items = [] := by
  have h := Run_arrivals_below l hook (by rw [hempty]; simpa using hlt)
  rw [hempty, List.nil_append] at h
  obtain ⟨heff, hhalt, hcfg, hitems⟩ := h
  have htick : (hook.Run (arrivals l)).hook.RunStep Event.tick net
      = (hook.Run (arrivals l)).hook.Flush net := rfl
  refine ⟨heff, hhalt, hitems, ?_, ?_, ?_⟩
  · rw [htick]
    by_cases hl : l.length = 0
    · have hl' : l = [] := List.eq_nil_of_length_eq_zero hl
      subst hl'
      rw [(Flush_empty _ net (by rw [hitems]; rfl)).1]
      rfl
    · have hne : (hook.Run (arrivals l)).hook.pendingLogs.items ≠ [] := by
        rw [hitems]
        intro hc
        apply hl
        simpa using congrArg List.length hc
      rw [Flush_deliveries _ net hne, hitems, if_neg hl]
  · rw [htick]
    by_cases hl : l.length = 0
    · have hl' : l = [] := List.eq_nil_of_length_eq_zero hl
      subst hl'
      rw [(Flush_empty _ net (by rw [hitems]; rfl)).1]
      rfl
    · have hne : (hook.Run (arrivals l)).hook.pendingLogs.items ≠ [] := by
        rw [hitems]
        intro hc
        apply hl
        simpa using congrArg List.length hc
      rw [Flush_posts _ net hne, hitems, hcfg, if_neg hl]
  · rw [htick, Flush_hook]
    rfl

theorem Run_below_threshold_then_tick_witness :
    ((sampleHook 3).Run (arrivals [(entryA, ok200), (entryB, ok200)])).effects = []
    ∧ deliveries (((sampleHook 3).Run (arrivals [(entryA, ok200), (entryB, ok200)])).hook.RunStep
        Event.tick ok200).effects = [[entryA, entryB]] :=
  ⟨(Run_below_threshold_then_tick (sampleHook 3) [(entryA, ok200), (entryB, ok200)] ok200
      rfl (by decide)).1,
   (Run_below_threshold_then_tick (sampleHook 3) [(entryA, ok200), (entryB, ok200)] ok200
      rfl (by decide)).2.2.2.1⟩

/-- C6: `Flush` issues a POST if and only if the pending buffer is non-empty: on
an empty buffer it returns with no effect at all, on a non-empty one it issues
exactly one POST, to the configured URL, whose body holds the configured
senders and the flushed entries in arrival order. -/
theorem Flush_posts_iff_pending (hook : LoggingHubHook) (net : PostResult) :
    (posts (hook.Flush net).effects ≠ [] ↔ hook.pendingLogs.items ≠ [])
    ∧ (if hook.pendingLogs.items.length = 0 then
        (hook.Flush net).effects = [] ∧ (hook.Flush net).outcome = Outcome.returned
      else
        posts (hook.Flush net).effects =
          [Effect.post hook.config.LoggingHubURL "application/json"
            ⟨hook.config.Senders, hook.pendingLogs.items⟩]) := by
  by_cases h : hook.pendingLogs.items = []
  · have he := Flush_empty hook net h
    refine ⟨?_, ?_⟩
    · rw [he.1]
      simp [posts, h]
    · rw [if_pos (by rw [h]; rfl)]
      exact he
  · have hp := Flush_posts hook net h
    refine ⟨?_, ?_⟩
    · rw [hp]
      simp [h]
    · rw [if_neg (by simpa [List.length_eq_zero] using h)]
      exact hp

/-- C7 (the code faults): with one entry pending and a POST that fails at the
transport level (an error and a nil response), `Flush` logs the error and then
dereferences the nil response: it panics instead of returning, the loop of
`Run` stops, and the entry that arrives afterwards is never delivered. -/
theorem Flush_transport_failure_panics :
    (((sampleHook 5).withPending ⟨[entryA], 0⟩).Flush
        (PostResult.failed "connection refused")).outcome = Outcome.panicked
    ∧ logs (((sampleHook 5).withPending ⟨[entryA], 0⟩).Flush
        (PostResult.failed "connection refused")).effects
        = [⟨"Error flushing logs", [("error", FieldValue.text "connection refused")]⟩]
    ∧ ((sampleHook 5).Run [(Event.entry entryA, ok200),
          (Event.tick, PostResult.failed "connection refused"),
          (Event.entry entryB, ok200), (Event.tick, ok200)]).halted = true
    ∧ deliveries ((sampleHook 5).Run [(Event.entry entryA, ok200),
          (Event.tick, PostResult.failed "connection refused"),
          (Event.entry entryB, ok200), (Event.tick, ok200)]).effects = [[entryA]] := by
  refine ⟨by rfl, by rfl, by rfl, by rfl⟩

/-- C8: on a non-empty buffer, when the POST is answered with a status code of
300 or more, `Flush` logs one error with the status code and the text of the
response body, returns normally and leaves the buffer empty, so that the batch
appears in no later flush; with a status code below 300 nothing is logged. -/
theorem Flush_status_logging (hook : LoggingHubHook) (r : Response)
    (h : hook.pendingLogs.items ≠ []) :
    (hook.Flush (PostResult.answered r)).outcome = Outcome.returned
    ∧ (hook.Flush (PostResult.answered r)).hook.pendingLogs.items = []
    ∧ (∀ calls : List BufferCall,
        (((hook.Flush (PostResult.answered r)).hook.pendingLogs.run calls).2.flatten
          ++ ((hook.Flush (PostResult.answered r)).hook.pendingLogs.run calls).1.items
          = appended calls))
    ∧ (r.StatusCode ≥ 300 →
        logs (hook.Flush (PostResult.answered r)).effects
          = logs (getHTTPErrorMsg r).2 ++
            [⟨"Error posting logs", [("statusCode", FieldValue.int r.StatusCode),
              ("error", FieldValue.text (getHTTPErrorMsg r).1)]⟩]
        ∧ (r.ReadErr = none →
            logs (hook.Flush (PostResult.answered r)).effects
              = [⟨"Error posting logs", [("statusCode", FieldValue.int r.StatusCode),
                  ("error", FieldValue.text r.Body)]⟩]))
    ∧ (r.StatusCode < 300 → logs (hook.Flush (PostResult.answered r)).effects = []) := by
  have hlen : ¬ hook.pendingLogs.items.length = 0 := by
    simpa [List.length_eq_zero] using h
  have hitems : (hook.Flush (PostResult.answered r)).hook.pendingLogs.items = [] := by
    rw [Flush_hook]; rfl
  refine ⟨Flush_outcome_of_resp hook r none, hitems, ?_, ?_, ?_⟩
  · intro calls
    have hc := run_conservation calls (hook.Flush (PostResult.answered r)).hook.pendingLogs
    rw [hitems, List.nil_append] at hc
    exact hc
  · intro hs
    have hgen : logs (hook.Flush (PostResult.answered r)).effects
          = logs (getHTTPErrorMsg r).2 ++
            [⟨"Error posting logs", [("statusCode", FieldValue.int r.StatusCode),
              ("error", FieldValue.text (getHTTPErrorMsg r).1)]⟩] := by
      unfold LoggingHubHook.Flush
      simp only [pendingLogs.flush, hlen, if_false, PostResult.answered, hs, if_true]
      simp [logs_append, logs]
    refine ⟨hgen, ?_⟩
    intro hread
    rw [hgen]
    simp [getHTTPErrorMsg, hread, logs]
  · intro hs
    have hs' : ¬ r.StatusCode ≥ 300 := by omega
    unfold LoggingHubHook.Flush
    simp only [pendingLogs.flush, hlen, if_false, PostResult.answered, hs']
    simp [logs]

theorem Flush_status_logging_witness :
    logs (((sampleHook 5).withPending ⟨[entryA], 0⟩).Flush (PostResult.answered resp500)).effects
      = [⟨"Error posting logs", [("statusCode", FieldValue.int 500),
          ("error", FieldValue.text "hub unavailable")]⟩]
    ∧ (((sampleHook 5).withPending ⟨[entryA], 0⟩).Flush
        (PostResult.answered resp500)).hook.pendingLogs.items = [] :=
  ⟨((Flush_status_logging ((sampleHook 5).withPending ⟨[entryA], 0⟩) resp500
      (by decide)).2.2.2.1 (by decide)).2 rfl,
   (Flush_status_logging ((sampleHook 5).withPending ⟨[entryA], 0⟩) resp500
      (by decide)).2.1⟩

/-! ## Runs on concrete inputs -/

theorem appendLog_spec_witness :
    (pendingLogs.appendLog ⟨[entryA], 29⟩ entryB).1.items = [entryA, entryB]
    ∧ (pendingLogs.appendLog ⟨[entryA], 29⟩ entryB).2.1 = 2
    ∧ (pendingLogs.appendLog ⟨[entryA], 29⟩ entryB).2.2
        = 29 + len entryB.Log + len entryB.Time + len entryB.Level :=
  ⟨(appendLog_spec ⟨[entryA], 29⟩ entryB).1,
   (appendLog_spec ⟨[entryA], 29⟩ entryB).2.1,
   (appendLog_spec ⟨[entryA], 29⟩ entryB).2.2.2.2.1 ⟨by decide, by decide⟩⟩

theorem RunStep_entry_threshold_witness :
    deliveries ((sampleHook 2).Run [(Event.entry entryA, ok200),
        (Event.entry entryB, PostResult.answered resp200), (Event.entry entryC, ok200),
        (Event.tick, PostResult.answered resp500)]).effects = [[entryA, entryB], [entryC]] :=
  ((RunStep_entry_threshold (sampleHook 2) entryA ok200).2 (sampleHook 2) entryA entryB entryC
    ok200 ok200 resp200 resp500 rfl rfl).2.2.2.1

theorem Fire_keys_eq_unignored_witness :
    "user" ∈ (((sampleHook 2).AddIgnore "password").Fire Stdlib.sample sampleRecord).Fields.keys
    ∧ "password" ∉
        (((sampleHook 2).AddIgnore "password").Fire Stdlib.sample sampleRecord).Fields.keys
    ∧ "password" ∉ (ignoringHook.Fire Stdlib.sample sampleRecord).Fields.keys :=
  ⟨(Fire_keys_eq_unignored Stdlib.sample ((sampleHook 2).AddIgnore "password")
      sampleRecord "user").1.mpr ⟨by decide, by decide⟩,
   (Fire_keys_eq_unignored Stdlib.sample (sampleHook 2) sampleRecord "password").2.1,
   (Fire_keys_eq_unignored Stdlib.sample (sampleHook 2) sampleRecord "password").2.2
      ignoringConfig ignoringHook rfl (by decide)⟩

theorem Fire_filtered_field_witness :
    (((sampleHook 2).AddFilter "password" maskFilter).Fire Stdlib.sample sampleRecord).Fields.get?
        "password" = some "***"
    ∧ (maskingHook.Fire Stdlib.sample sampleRecord).Fields.get? "password" = some "***" :=
  ⟨(Fire_filtered_field Stdlib.sample (sampleHook 2) sampleRecord "password"
      (Value.ofString "hunter2") maskFilter (by decide) rfl rfl).2.1,
   (Fire_filtered_field Stdlib.sample (sampleHook 2) sampleRecord "password"
      (Value.ofString "hunter2") maskFilter (by decide) rfl rfl).2.2
      maskingConfig maskingHook rfl (by decide) rfl rfl⟩

theorem Flush_posts_iff_pending_witness :
    posts (((sampleHook 5).withPending ⟨[entryA, entryB], 0⟩).Flush ok200).effects
      = [Effect.post "http://hub.local/logs" "application/json"
          ⟨["frontend"], [entryA, entryB]⟩]
    ∧ ((sampleHook 5).Flush ok200).effects = [] :=
  ⟨(Flush_posts_iff_pending ((sampleHook 5).withPending ⟨[entryA, entryB], 0⟩) ok200).2,
   ((Flush_posts_iff_pending (sampleHook 5) ok200).2).1⟩

/-! ## Construction -/

theorem NewWithConfig_error_of_invalid (conf : Config)
    (h : conf.LoggingHubURL = "" ∨ conf.Senders = []) :
    ∃ msg, NewWithConfig conf = Except.error msg := by
  unfold NewWithConfig
  by_cases hu : conf.LoggingHubURL = ""
  · exact ⟨_, by rw [if_pos hu]⟩
  · have hs : conf.Senders = [] := h.resolve_left hu
    exact ⟨_, by rw [if_neg hu, if_pos (by rw [hs]; rfl)]⟩

theorem NewWithConfig_ok_of_valid (conf : Config)
    (hu : ¬ conf.LoggingHubURL = "") (hs : ¬ conf.Senders = []) :
    ∃ hook, NewWithConfig conf = Except.ok hook := by
  have hlen : ¬ conf.Senders.length = 0 := by
    simpa [List.length_eq_zero] using hs
  unfold NewWithConfig
  exact ⟨_, by rw [if_neg hu, if_neg hlen]⟩

theorem NewWithConfig_ok_fields (conf : Config) (hook : LoggingHubHook)
    (hok : NewWithConfig conf = Except.ok hook) :
    hook.levels = (if conf.LogLevels.length = 0 then defaultLevels else conf.LogLevels)
    ∧ hook.config.FlushInterval
        = (if conf.FlushInterval = 0 then defaultFlushInterval else conf.FlushInterval)
    ∧ hook.config.BatchSizeInLines = conf.BatchSizeInLines
    ∧ hook.pendingLogs = pendingLogs.empty := by
  unfold NewWithConfig at hok
  split at hok
  · cases hok
  · split at hok
    · cases hok
    · injection hok with hok
      subst hok
      by_cases hf : conf.FlushInterval = 0 <;> simp [hf]

/-- C11: `NewWithConfig` returns an error, and no hook, exactly when the sink URL
is the empty string or the sender list is empty; for every other configuration
it returns a hook and no error. `NewLoggingHubHook(url, senders)` fails under
the same condition. -/
theorem NewWithConfig_error_iff (conf : Config) (url : String) (senders : List String) :
    ((∃ msg, NewWithConfig conf = Except.error msg)
        ↔ (conf.LoggingHubURL = "" ∨ conf.Senders = []))
    ∧ ((∃ hook, NewWithConfig conf = Except.ok hook)
        ↔ ¬ (conf.LoggingHubURL = "" ∨ conf.Senders = []))
    ∧ ((∃ msg, NewLoggingHubHook url senders = Except.error msg) ↔ (url = "" ∨ senders = []))
    ∧ ((∃ hook, NewLoggingHubHook url senders = Except.ok hook)
        ↔ ¬ (url = "" ∨ senders = [])) := by
  have key : ∀ c : Config,
      ((∃ msg, NewWithConfig c = Except.error msg) ↔ (c.LoggingHubURL = "" ∨ c.Senders = []))
      ∧ ((∃ hook, NewWithConfig c = Except.ok hook)
          ↔ ¬ (c.LoggingHubURL = "" ∨ c.Senders = [])) := by
    intro c
    by_cases hinv : c.LoggingHubURL = "" ∨ c.Senders = []
    · obtain ⟨msg, hmsg⟩ := NewWithConfig_error_of_invalid c hinv
      refine ⟨⟨fun _ => hinv, fun _ => ⟨msg, hmsg⟩⟩, ⟨?_, fun hn => absurd hinv hn⟩⟩
      rintro ⟨hook, hhook⟩
      rw [hmsg] at hhook
      cases hhook
    · have hu : ¬ c.LoggingHubURL = "" := fun e => hinv (Or.inl e)
      have hs : ¬ c.Senders = [] := fun e => hinv (Or.inr e)
      obtain ⟨hook, hhook⟩ := NewWithConfig_ok_of_valid c hu hs
      refine ⟨⟨?_, fun hc => absurd hc hinv⟩, ⟨fun _ => hinv, fun _ => ⟨hook, hhook⟩⟩⟩
      rintro ⟨msg, hmsg⟩
      rw [hhook] at hmsg
      cases hmsg
  exact ⟨(key conf).1, (key conf).2,
    (key ⟨url, senders, [], [], [], 0, 0, defaultFlushInterval⟩).1,
    (key ⟨url, senders, [], [], [], 0, 0, defaultFlushInterval⟩).2⟩

/-- C12: the hook `NewWithConfig` returns for a valid configuration applies the
defaults: `Levels()` is the configured list when it is not empty and otherwise
panic, fatal, error, warn, info (debug and trace excluded), and the flush
interval is the configured one when it is not zero and otherwise 30 seconds. -/
theorem NewWithConfig_defaults (conf : Config) (hook : LoggingHubHook)
    (hok : NewWithConfig conf = Except.ok hook) :
    hook.Levels = (if conf.LogLevels.length = 0
        then [PanicLevel, FatalLevel, ErrorLevel, WarnLevel, InfoLevel] else conf.LogLevels)
    ∧ hook.config.FlushInterval
        = (if conf.FlushInterval = 0 then 30 * 1000000000 else conf.FlushInterval)
    ∧ DebugLevel ∉ defaultLevels ∧ TraceLevel ∉ defaultLevels
    ∧ defaultLevels.map Level.String = ["panic", "fatal", "error", "warning", "info"] := by
  have h := NewWithConfig_ok_fields conf hook hok
  refine ⟨h.1, h.2.1, by decide, by decide, by decide⟩

theorem NewWithConfig_defaults_witness :
    ignoringHook.Levels = [PanicLevel, FatalLevel, ErrorLevel, WarnLevel, InfoLevel]
    ∧ ignoringHook.config.FlushInterval = 30 * 1000000000 :=
  ⟨(NewWithConfig_defaults ignoringConfig ignoringHook rfl).1,
   (NewWithConfig_defaults ignoringConfig ignoringHook rfl).2.1⟩

/-! ## A threshold that is zero or negative -/

theorem Flush_config (hook : LoggingHubHook) (net : PostResult) :
    (hook.Flush net).hook.config = hook.config := by
  rw [Flush_hook]
  rfl

theorem Run_nonpositive_inv (events : List (Event × PostResult)) :
    ∀ hook : LoggingHubHook, hook.pendingLogs.items = [] →
      hook.config.BatchSizeInLines ≤ 0 →
      (hook.Run events).hook.pendingLogs.items = []
      ∧ (∀ b ∈ deliveries (hook.Run events).effects, ∃ e, b = [e])
      ∧ ((hook.Run events).halted = false →
          deliveries (hook.Run events).effects
            = (arrivedEntries events).map (fun e => [e])) := by
  induction events with
  | nil =>
    intro hook hemp _
    simp [LoggingHubHook.Run, deliveries, arrivedEntries, hemp]
  | cons p rest ih =>
    intro hook hemp ht
    obtain ⟨ev, net⟩ := p
    -- what one iteration does, whatever the event
    have hstep : (hook.RunStep ev net).hook.pendingLogs.items = []
        ∧ (hook.RunStep ev net).hook.config.BatchSizeInLines ≤ 0
        ∧ deliveries (hook.RunStep ev net).effects
            = (arrivedEntries [(ev, net)]).map (fun e => [e]) := by
      cases ev with
      | entry e =>
        have hreach : (hook.pendingLogs.items.length : Int) + 1
            ≥ hook.config.BatchSizeInLines := by
          rw [hemp]; simp; omega
        have hhook := RunStep_entry_hook hook e net
        have hdel := RunStep_entry_deliveries hook e net
        rw [if_pos hreach] at hhook hdel
        rw [hemp] at hdel
        refine ⟨hhook.2, by rw [hhook.1]; exact ht, ?_⟩
        rw [hdel]
        rfl
      | tick =>
        have htick : hook.RunStep Event.tick net = hook.Flush net := rfl
        rw [htick]
        refine ⟨by rw [Flush_hook]; rfl, by rw [Flush_config]; exact ht, ?_⟩
        rw [(Flush_empty hook net hemp).1]
        rfl
    have harr : arrivedEntries ((ev, net) :: rest)
        = arrivedEntries [(ev, net)] ++ arrivedEntries rest := by
      cases ev <;> rfl
    cases hout : (hook.RunStep ev net).outcome with
    | panicked =>
      rw [Run_cons_panicked hook ev net rest hout]
      refine ⟨hstep.1, ?_, ?_⟩
      · intro b hb
        rw [hstep.2.2] at hb
        obtain ⟨e, _, he⟩ := List.mem_map.mp hb
        exact ⟨e, he.symm⟩
      · intro hc
        cases hc
    | returned =>
      rw [Run_cons_returned hook ev net rest hout]
      have hih := ih (hook.RunStep ev net).hook hstep.1 hstep.2.1
      refine ⟨hih.1, ?_, ?_⟩
      · intro b hb
        rw [deliveries_append] at hb
        rcases List.mem_append.mp hb with hb | hb
        · rw [hstep.2.2] at hb
          obtain ⟨e, _, he⟩ := List.mem_map.mp hb
          exact ⟨e, he.symm⟩
        · exact hih.2.1 b hb
      · intro hh
        rw [deliveries_append, hstep.2.2, hih.2.2 hh, harr, List.map_append]

/-- C13: with a threshold that is zero or negative, as in every hook built by
`NewLoggingHubHook`, each arrival triggers an immediate flush whose batch holds
exactly the entry that just arrived, and the buffer is empty after every
iteration of the scheduler: no batching takes place. -/
theorem Run_nonpositive_threshold (hook : LoggingHubHook) (events : List (Event × PostResult))
    (hempty : hook.pendingLogs.items = []) (ht : hook.config.BatchSizeInLines ≤ 0) :
    (hook.Run events).hook.pendingLogs.items = []
    ∧ (∀ b ∈ deliveries (hook.Run events).effects, ∃ e, b = [e])
    ∧ ((hook.Run events).halted = false →
        deliveries (hook.Run events).effects = (arrivedEntries events).map (fun e => [e]))
    ∧ (∀ (e : LoggingHubEntry) (net : PostResult),
        deliveries (hook.RunStep (Event.entry e) net).effects = [[e]]
        ∧ (hook.RunStep (Event.entry e) net).hook.pendingLogs.items = [])
    ∧ (∀ (url : String) (senders : List String) (built : LoggingHubHook),
        NewLoggingHubHook url senders = Except.ok built →
        built.config.BatchSizeInLines = 0 ∧ built.pendingLogs.items = []) := by
  have hinv := Run_nonpositive_inv events hook hempty ht
  refine ⟨hinv.1, hinv.2.1, hinv.2.2, ?_, ?_⟩
  · intro e net
    have hreach : (hook.pendingLogs.items.length : Int) + 1
        ≥ hook.config.BatchSizeInLines := by
      rw [hempty]; simp; omega
    have hhook := RunStep_entry_hook hook e net
    have hdel := RunStep_entry_deliveries hook e net
    rw [if_pos hreach] at hhook hdel
    rw [hempty] at hdel
    exact ⟨hdel, hhook.2⟩
  · intro url senders built hb
    have h := NewWithConfig_ok_fields _ built hb
    refine ⟨h.2.2.1, ?_⟩
    rw [h.2.2.2]
    rfl

theorem Run_nonpositive_threshold_witness :
    deliveries ((sampleHook 0).Run [(Event.entry entryA, ok200), (Event.entry entryB, ok200),
        (Event.tick, ok200), (Event.entry entryC, ok200)]).effects
      = [[entryA], [entryB], [entryC]]
    ∧ ((sampleHook 0).Run [(Event.entry entryA, ok200), (Event.entry entryB, ok200),
        (Event.tick, ok200), (Event.entry entryC, ok200)]).hook.pendingLogs.items = [] :=
  ⟨(Run_nonpositive_threshold (sampleHook 0) [(Event.entry entryA, ok200),
      (Event.entry entryB, ok200), (Event.tick, ok200), (Event.entry entryC, ok200)]
      rfl (by decide)).2.2.1 rfl,
   (Run_nonpositive_threshold (sampleHook 0) [(Event.entry entryA, ok200),
      (Event.entry entryB, ok200), (Event.tick, ok200), (Event.entry entryC, ok200)]
      rfl (by decide)).1⟩

/-! ## The running size counter -/

theorem flush_totalSize (pl : pendingLogs) : pl.flush.1.totalSize = pl.totalSize := by
  simp only [pendingLogs.flush]

theorem appendLog_totalSize (pl : pendingLogs) (e : LoggingHubEntry) :
    (pl.appendLog e).1.totalSize = wrapInt (pl.totalSize + getSize e) := by
  simp only [pendingLogs.appendLog, goAdd]

theorem sizeSum_nil : sizeSum [] = 0 := by
  unfold sizeSum
  rw [List.map_nil, List.sum_nil]

theorem sizeSum_cons (e : LoggingHubEntry) (l : List LoggingHubEntry) :
    sizeSum (e :: l) = getSize e + sizeSum l := by
  unfold sizeSum
  rw [List.map_cons, List.sum_cons]

theorem sizeSum_concat (l : List LoggingHubEntry) (e : LoggingHubEntry) :
    sizeSum (l ++ [e]) = sizeSum l + getSize e := by
  unfold sizeSum
  rw [List.map_append, List.sum_append, List.map_cons, List.map_nil, List.sum_cons,
    List.sum_nil, add_zero]

theorem run_totalSize (calls : List BufferCall) :
    ∀ pl : pendingLogs,
      wrapInt (pl.run calls).1.totalSize
        = wrapInt (pl.totalSize + sizeSum (appended calls)) := by
  induction calls with
  | nil =>
    intro pl
    have h1 : (pl.run []).1 = pl := by
      simp only [pendingLogs.run]
    have h2 : sizeSum (appended []) = 0 := sizeSum_nil
    rw [h1, h2, add_zero]
  | cons c rest ih =>
    intro pl
    cases c with
    | appendLog e =>
      have h1 : (pl.run (BufferCall.appendLog e :: rest)).1
          = ((pl.appendLog e).1.run rest).1 := by
        simp only [pendingLogs.run]
      have h2 : sizeSum (appended (BufferCall.appendLog e :: rest))
          = getSize e + sizeSum (appended rest) := sizeSum_cons e (appended rest)
      rw [h1, h2, ih, appendLog_totalSize, wrapInt_wrapInt_add, add_assoc]
    | flush =>
      have h1 : (pl.run (BufferCall.flush :: rest)).1 = (pl.flush.1.run rest).1 := by
        simp only [pendingLogs.run]
      have h2 : sizeSum (appended (BufferCall.flush :: rest)) = sizeSum (appended rest) := by
        simp only [appended]
      rw [h1, h2, ih, flush_totalSize]

/-- C14: `flush` changes only the pending sequence and leaves the running size
counter as it is: after any sequence of `appendLog` and `flush` calls on a fresh
buffer, the total that `appendLog` returns is the sum of the sizes (`getSize`)
of all entries appended since the buffer was created, flushed ones included
(Go `int` addition, the exact sum whenever it is representable); it is not in
general the size of the entries that are pending. -/
theorem flush_keeps_totalSize (pl : pendingLogs) (calls : List BufferCall)
    (e : LoggingHubEntry) :
    pl.flush.1.totalSize = pl.totalSize
    ∧ pl.flush.1.items = []
    ∧ ((pendingLogs.empty.run calls).1.appendLog e).2.2
        = wrapInt (sizeSum (appended calls ++ [e]))
    ∧ (-9223372036854775808 ≤ sizeSum (appended calls ++ [e])
        ∧ sizeSum (appended calls ++ [e]) < 9223372036854775808 →
        ((pendingLogs.empty.run calls).1.appendLog e).2.2 = sizeSum (appended calls ++ [e]))
    ∧ (((pendingLogs.empty.run [BufferCall.appendLog entryA, BufferCall.flush]).1.appendLog
          entryB).2.2 = getSize entryA + getSize entryB
        ∧ ((pendingLogs.empty.run [BufferCall.appendLog entryA, BufferCall.flush]).1.appendLog
          entryB).1.items = [entryB]
        ∧ ((pendingLogs.empty.run [BufferCall.appendLog entryA, BufferCall.flush]).1.appendLog
          entryB).2.2 ≠ sizeSum [entryB]) := by
  have hgen : ((pendingLogs.empty.run calls).1.appendLog e).2.2
        = wrapInt (sizeSum (appended calls ++ [e])) := by
    have h0 : pendingLogs.empty.totalSize = 0 := by
      simp only [pendingLogs.empty]
    show goAdd (pendingLogs.empty.run calls).1.totalSize (getSize e) = _
    unfold goAdd
    rw [← wrapInt_wrapInt_add, run_totalSize, wrapInt_wrapInt_add, h0, zero_add,
      sizeSum_concat]
  refine ⟨rfl, rfl, hgen, ?_, ?_, ?_, ?_⟩
  · rintro ⟨h1, h2⟩
    rw [hgen]
    exact wrapInt_of_inRange _ h1 h2
  · decide
  · rfl
  · decide

theorem flush_keeps_totalSize_witness :
    ((pendingLogs.empty.run [BufferCall.appendLog entryA, BufferCall.flush,
        BufferCall.appendLog entryC]).1.appendLog entryB).2.2
      = sizeSum [entryA, entryC, entryB] :=
  (flush_keeps_totalSize pendingLogs.empty [BufferCall.appendLog entryA, BufferCall.flush,
    BufferCall.appendLog entryC] entryB).2.2.2.1 ⟨by decide, by decide⟩

theorem NewWithConfig_error_iff_witness :
    (∃ msg, NewWithConfig (sampleConfig 2) = Except.error msg) = False
    ∧ (∃ msg, NewLoggingHubHook "" ["frontend"] = Except.error msg) :=
  ⟨eq_false (fun h => (((NewWithConfig_error_iff (sampleConfig 2) "" ["frontend"]).1).mp h).elim
      (by decide) (by decide)),
   ((NewWithConfig_error_iff (sampleConfig 2) "" ["frontend"]).2.2.1).mpr (Or.inl rfl)⟩

end LoggingHub
